import Mathlib

/-!
Verification of the Branch Evaluator (the conditional router component of
the langflow excerpt, `conditional_router.py`).

Python strings are modelled as lists of characters; the per-character
lowering of `str.lower()` is `Char.toLower` pointwise.  The component's
dict of operations and the `dict.get(operator, False)` lookup are modelled
by an association list and `List.lookup` with a default.  The run context
(host-provided keyed storage) is a total function from keys to integers
with default 0, matching `self.ctx.get(key, 0)`; `update_ctx` is a
pointwise function update.  The `self.stop(route)` signal is recorded by
appending the stopped edge name to a list.
-/

namespace ConditionalRouter

/-- Python str.lower applied characterwise. -/
def pyLower (s : List Char) : List Char := s.map Char.toLower

/-- Python s.startswith(p): does s begin with p. -/
def startsWithL : List Char → List Char → Bool
  | _, [] => true
  | [], _ :: _ => false
  | c :: s, p :: ps => c = p && startsWithL s ps

/-- Python s.endswith(p): does s end with p. -/
def endsWithL (s p : List Char) : Bool := startsWithL s.reverse p.reverse

/-- Python sub in s: is sub a contiguous substring of s. -/
def strContains (sub : List Char) : List Char → Bool
  | [] => sub.isEmpty
  | c :: rest => startsWithL (c :: rest) sub || strContains sub rest

/-- The operations dict built by evaluate_condition, as an association
list in the source order. -/
def operations (input_text match_text : List Char) : List (String × Bool) :=
  [("equals", decide (input_text = match_text)),
   ("not equals", decide (input_text ≠ match_text)),
   ("contains", strContains match_text input_text),
   ("starts with", startsWithL input_text match_text),
   ("ends with", endsWithL input_text match_text)]

/-- evaluate_condition from the source: case-fold both operands when not
case_sensitive, then look the operator up in the operations dict with
default False. -/
def evaluate_condition (input_text match_text : List Char) (operator : String)
    (case_sensitive : Bool) : Bool :=
  let input_text := if case_sensitive then input_text else pyLower input_text
  let match_text := if case_sensitive then match_text else pyLower match_text
  (List.lookup operator (operations input_text match_text)).getD false


/-- The component's configured inputs: the text inputs, operator,
case_sensitive flag, passthrough message, max_iterations (a Python int,
possibly zero or negative), default_route, and the stable instance id. -/
structure Config where
  input_text : List Char
  match_text : List Char
  operator : String
  case_sensitive : Bool
  message : List Char
  max_iterations : Int
  default_route : String
  id : String

/-- Mutable state visible to one evaluator instance: the per-invocation
guard flag (double-underscore iteration_updated in the source), the
run-scoped context (keyed storage with default 0), the list of stop-edge
signals emitted so far, and the component status. -/
structure CompState where
  iteration_updated : Bool
  ctx : String → Int
  stopped : List String
  status : Option (List Char)

/-- The run-context key used by the instance, f-string id _iteration. -/
def iterationKey (cfg : Config) : String := cfg.id ++ "_iteration"

/-- The flip performed by the iteration guard: true_result if the route
is false_result, else false_result. -/
def flipRoute (route : String) : String :=
  if route = "false_result" then "true_result" else "false_result"

/-- The route actually stopped, given the incremented iteration count:
flipped when the count has reached max_iterations and the route to stop
is the default route. -/
def stopDecision (cfg : Config) (iteration_count : Int) (route_to_stop : String) : String :=
  if iteration_count ≥ cfg.max_iterations ∧ route_to_stop = cfg.default_route then
    flipRoute route_to_stop
  else route_to_stop

/-- iterate_and_stop_once from the source: when the guard flag is unset,
increment the run-scoped counter, persist it, set the flag, and stop the
(possibly flipped) route; otherwise do nothing. -/
def iterate_and_stop_once (cfg : Config) (s : CompState) (route_to_stop : String) : CompState :=
  if s.iteration_updated then s
  else
    let key := iterationKey cfg
    let iteration_count := s.ctx key + 1
    { iteration_updated := true
      ctx := fun k => if k = key then iteration_count else s.ctx k
      stopped := s.stopped ++ [stopDecision cfg iteration_count route_to_stop]
      status := s.status }

/-- What an output accessor returns: the passthrough message or the
empty string. -/
inductive RouteValue where
  | passthrough (m : List Char)
  | empty
deriving DecidableEq

/-- true_response from the source: evaluate the condition; when true,
set status, stop false_result and return the message; otherwise stop
true_result and return the empty string. -/
def true_response (cfg : Config) (s : CompState) : CompState × RouteValue :=
  if evaluate_condition cfg.input_text cfg.match_text cfg.operator cfg.case_sensitive then
    (iterate_and_stop_once cfg { s with status := some cfg.message } "false_result",
      RouteValue.passthrough cfg.message)
  else
    (iterate_and_stop_once cfg s "true_result", RouteValue.empty)

/-- false_response from the source: evaluate the condition; when false,
set status, stop true_result and return the message; otherwise stop
false_result and return the empty string. -/
def false_response (cfg : Config) (s : CompState) : CompState × RouteValue :=
  if ¬ evaluate_condition cfg.input_text cfg.match_text cfg.operator cfg.case_sensitive then
    (iterate_and_stop_once cfg { s with status := some cfg.message } "true_result",
      RouteValue.passthrough cfg.message)
  else
    (iterate_and_stop_once cfg s "false_result", RouteValue.empty)

/-- pre_run_setup from the source: clear the per-invocation guard flag. -/
def pre_run_setup (s : CompState) : CompState := { s with iteration_updated := false }

/-- Which accessor the host invokes: tr is true_response, fa is
false_response. -/
inductive Accessor where
  | tr
  | fa
deriving DecidableEq

/-- Dispatch one accessor call. -/
def runAccessor (cfg : Config) (s : CompState) : Accessor → CompState × RouteValue
  | Accessor.tr => true_response cfg s
  | Accessor.fa => false_response cfg s

/-- Run a sequence of accessor calls, threading the state. -/
def runCalls (cfg : Config) (s : CompState) : List Accessor → CompState
  | [] => s
  | a :: rest => runCalls cfg (runAccessor cfg s a).1 rest

/-- One invocation cycle: pre_run_setup followed by the host's accessor
calls. -/
def invocation (cfg : Config) (s : CompState) (calls : List Accessor) : CompState :=
  runCalls cfg (pre_run_setup s) calls

/-- A run: a sequence of invocation cycles against the same instance. -/
def runInvocations (cfg : Config) (s : CompState) : List (List Accessor) → CompState
  | [] => s
  | inv :: rest => runInvocations cfg (invocation cfg s inv) rest

/-- The edge that receives the passthrough message for the current
condition result: True when the condition holds, else False. -/
def takenEdge (cfg : Config) : String :=
  if evaluate_condition cfg.input_text cfg.match_text cfg.operator cfg.case_sensitive then
    "true_result"
  else "false_result"

/-- The route both accessors hand to iterate_and_stop_once: the opposite
of the taken edge. -/
def routeOf (cfg : Config) : String :=
  if evaluate_condition cfg.input_text cfg.match_text cfg.operator cfg.case_sensitive then
    "false_result"
  else "true_result"

/-- The operand as actually compared: unchanged when case_sensitive,
otherwise lowered, mirroring the head of evaluate_condition. -/
def caseFold (case_sensitive : Bool) (s : List Char) : List Char :=
  if case_sensitive then s else pyLower s

/-- A concrete configuration used as a witness input: condition
"a" equals "a" holds, max_iterations is 1 and the default route is
false_result, so the iteration guard fires on the first invocation. -/
def cfg0 : Config :=
  { input_text := "a".data, match_text := "a".data, operator := "equals",
    case_sensitive := true, message := "m".data, max_iterations := 1,
    default_route := "false_result", id := "n" }

/-- A fresh component state: empty context, no stop signals, no status. -/
def s0 : CompState :=
  { iteration_updated := false, ctx := fun _ => 0, stopped := [], status := none }

theorem startsWithL_iff (s p : List Char) :
    startsWithL s p = true ↔ ∃ t, s = p ++ t := by
  induction p generalizing s with
  | nil => simp [startsWithL]
  | cons q ps ih =>
    cases s with
    | nil => simp [startsWithL]
    | cons c cs =>
      simp only [startsWithL, Bool.and_eq_true, decide_eq_true_eq, ih,
        List.cons_append, List.cons.injEq]
      constructor
      · rintro ⟨rfl, t, rfl⟩; exact ⟨t, rfl, rfl⟩
      · rintro ⟨t, rfl, rfl⟩; exact ⟨rfl, t, rfl⟩

theorem endsWithL_iff (s p : List Char) :
    endsWithL s p = true ↔ ∃ t, s = t ++ p := by
  unfold endsWithL
  rw [startsWithL_iff]
  constructor
  · rintro ⟨t, ht⟩
    refine ⟨t.reverse, ?_⟩
    have := congrArg List.reverse ht
    simpa using this
  · rintro ⟨t, rfl⟩
    exact ⟨t.reverse, by simp⟩

theorem strContains_iff (sub s : List Char) :
    strContains sub s = true ↔ ∃ u v, s = u ++ sub ++ v := by
  induction s with
  | nil =>
    simp only [strContains, List.isEmpty_iff]
    constructor
    · rintro rfl; exact ⟨[], [], rfl⟩
    · rintro ⟨u, v, huv⟩
      rcases List.append_eq_nil.mp huv.symm with ⟨h1, h2⟩
      exact (List.append_eq_nil.mp h1).2
  | cons c rest ih =>
    simp only [strContains, Bool.or_eq_true, startsWithL_iff, ih]
    constructor
    · rintro (⟨t, ht⟩ | ⟨u, v, rfl⟩)
      · exact ⟨[], t, by simpa using ht⟩
      · exact ⟨c :: u, v, by simp⟩
    · rintro ⟨u, v, huv⟩
      cases u with
      | nil =>
        left
        exact ⟨v, by simpa using huv⟩
      | cons a u2 =>
        right
        refine ⟨u2, v, ?_⟩
        simp only [List.cons_append, List.cons.injEq] at huv
        exact huv.2

theorem iterate_done (cfg : Config) (s : CompState) (r : String)
    (h : s.iteration_updated = true) : iterate_and_stop_once cfg s r = s := by
  simp [iterate_and_stop_once, h]

theorem iterate_fresh (cfg : Config) (s : CompState) (r : String)
    (h : s.iteration_updated = false) :
    iterate_and_stop_once cfg s r =
      { iteration_updated := true
        ctx := fun k => if k = iterationKey cfg then s.ctx (iterationKey cfg) + 1 else s.ctx k
        stopped := s.stopped ++ [stopDecision cfg (s.ctx (iterationKey cfg) + 1) r]
        status := s.status } := by
  simp [iterate_and_stop_once, h]

theorem runAccessor_done (cfg : Config) (s : CompState) (a : Accessor)
    (h : s.iteration_updated = true) :
    (runAccessor cfg s a).1.iteration_updated = true ∧
    (runAccessor cfg s a).1.ctx = s.ctx ∧
    (runAccessor cfg s a).1.stopped = s.stopped := by
  cases a <;>
    rcases hev : evaluate_condition cfg.input_text cfg.match_text cfg.operator
      cfg.case_sensitive <;>
    simp [runAccessor, true_response, false_response, hev, iterate_and_stop_once, h]

theorem runCalls_done (cfg : Config) (calls : List Accessor) (s : CompState)
    (h : s.iteration_updated = true) :
    (runCalls cfg s calls).iteration_updated = true ∧
    (runCalls cfg s calls).ctx = s.ctx ∧
    (runCalls cfg s calls).stopped = s.stopped := by
  induction calls generalizing s with
  | nil => exact ⟨h, rfl, rfl⟩
  | cons a rest ih =>
    obtain ⟨h1, h2, h3⟩ := runAccessor_done cfg s a h
    obtain ⟨g1, g2, g3⟩ := ih ((runAccessor cfg s a).1) h1
    exact ⟨g1, by rw [runCalls, g2, h2], by rw [runCalls, g3, h3]⟩

theorem runAccessor_fresh (cfg : Config) (s : CompState) (a : Accessor)
    (h : s.iteration_updated = false) :
    (runAccessor cfg s a).1.iteration_updated = true ∧
    (runAccessor cfg s a).1.ctx =
      (fun k => if k = iterationKey cfg then s.ctx (iterationKey cfg) + 1 else s.ctx k) ∧
    (runAccessor cfg s a).1.stopped =
      s.stopped ++ [stopDecision cfg (s.ctx (iterationKey cfg) + 1) (routeOf cfg)] := by
  cases a <;>
    rcases hev : evaluate_condition cfg.input_text cfg.match_text cfg.operator
      cfg.case_sensitive <;>
    simp [runAccessor, true_response, false_response, routeOf, hev,
      iterate_and_stop_once, h]

theorem invocation_cons (cfg : Config) (s : CompState) (a : Accessor)
    (rest : List Accessor) :
    (invocation cfg s (a :: rest)).iteration_updated = true ∧
    (invocation cfg s (a :: rest)).ctx =
      (fun k => if k = iterationKey cfg then s.ctx (iterationKey cfg) + 1 else s.ctx k) ∧
    (invocation cfg s (a :: rest)).stopped =
      s.stopped ++ [stopDecision cfg (s.ctx (iterationKey cfg) + 1) (routeOf cfg)] := by
  have h0 : (pre_run_setup s).iteration_updated = false := rfl
  obtain ⟨h1, h2, h3⟩ := runAccessor_fresh cfg (pre_run_setup s) a h0
  obtain ⟨g1, g2, g3⟩ := runCalls_done cfg rest ((runAccessor cfg (pre_run_setup s) a).1) h1
  have heq : invocation cfg s (a :: rest) =
      runCalls cfg ((runAccessor cfg (pre_run_setup s) a).1) rest := rfl
  refine ⟨heq ▸ g1, ?_, ?_⟩
  · rw [heq, g2, h2]; rfl
  · rw [heq, g3, h3]; rfl

theorem true_response_val (cfg : Config) (s : CompState) :
    (true_response cfg s).2 =
      (if evaluate_condition cfg.input_text cfg.match_text cfg.operator cfg.case_sensitive
        then RouteValue.passthrough cfg.message else RouteValue.empty) := by
  rcases hev : evaluate_condition cfg.input_text cfg.match_text cfg.operator
    cfg.case_sensitive <;> simp [true_response, hev]

theorem false_response_val (cfg : Config) (s : CompState) :
    (false_response cfg s).2 =
      (if evaluate_condition cfg.input_text cfg.match_text cfg.operator cfg.case_sensitive
        then RouteValue.empty else RouteValue.passthrough cfg.message) := by
  rcases hev : evaluate_condition cfg.input_text cfg.match_text cfg.operator
    cfg.case_sensitive <;> simp [false_response, hev]

theorem eval_equals (a b : List Char) (cs : Bool) :
    evaluate_condition a b "equals" cs = decide (caseFold cs a = caseFold cs b) := rfl

theorem eval_not_equals (a b : List Char) (cs : Bool) :
    evaluate_condition a b "not equals" cs = decide (¬ caseFold cs a = caseFold cs b) := rfl

theorem eval_contains (a b : List Char) (cs : Bool) :
    evaluate_condition a b "contains" cs = strContains (caseFold cs b) (caseFold cs a) := rfl

theorem eval_starts (a b : List Char) (cs : Bool) :
    evaluate_condition a b "starts with" cs = startsWithL (caseFold cs a) (caseFold cs b) := rfl

theorem eval_ends (a b : List Char) (cs : Bool) :
    evaluate_condition a b "ends with" cs = endsWithL (caseFold cs a) (caseFold cs b) := rfl

/-- C3: evaluate_condition implements the five documented predicates over
the case-folded operands: equals is string equality, not equals its
negation, contains is the substring relation, starts with the prefix
relation, ends with the suffix relation; the operands are compared
unchanged when case_sensitive and lowered first otherwise, so
Equals("Foo","foo") is false case-sensitively and true
case-insensitively. -/
theorem evaluate_condition_spec :
    ∀ (a b : List Char) (cs : Bool),
      (evaluate_condition a b "equals" cs = true ↔ caseFold cs a = caseFold cs b) ∧
      (evaluate_condition a b "not equals" cs = true ↔ ¬ caseFold cs a = caseFold cs b) ∧
      (evaluate_condition a b "contains" cs = true ↔
        ∃ u v, caseFold cs a = u ++ caseFold cs b ++ v) ∧
      (evaluate_condition a b "starts with" cs = true ↔
        ∃ t, caseFold cs a = caseFold cs b ++ t) ∧
      (evaluate_condition a b "ends with" cs = true ↔
        ∃ t, caseFold cs a = t ++ caseFold cs b) ∧
      caseFold true a = a ∧ caseFold false a = pyLower a ∧
      evaluate_condition "Foo".data "foo".data "equals" true = false ∧
      evaluate_condition "Foo".data "foo".data "equals" false = true := by
  intro a b cs
  refine ⟨?_, ?_, ?_, ?_, ?_, rfl, rfl, by decide, by decide⟩
  · rw [eval_equals]; exact decide_eq_true_iff
  · rw [eval_not_equals]; exact decide_eq_true_iff
  · rw [eval_contains]; exact strContains_iff _ _
  · rw [eval_starts]; exact startsWithL_iff _ _
  · rw [eval_ends]; exact endsWithL_iff _ _

/-- C6: for all operands and both case flags, the equals result is the
boolean negation of the not equals result. -/
theorem equals_eq_not_notEquals :
    ∀ (a b : List Char) (cs : Bool),
      evaluate_condition a b "equals" cs = !evaluate_condition a b "not equals" cs := by
  intro a b cs
  rw [eval_equals, eval_not_equals, decide_not, Bool.not_not]

/-- C7: the empty match text is contained in every input, and every
string starts with itself and ends with itself, for both case flags. -/
theorem contains_empty_starts_ends_self :
    ∀ (a : List Char) (cs : Bool),
      evaluate_condition a [] "contains" cs = true ∧
      evaluate_condition a a "starts with" cs = true ∧
      evaluate_condition a a "ends with" cs = true := by
  intro a cs
  have hnil : caseFold cs [] = [] := by cases cs <;> rfl
  refine ⟨?_, ?_, ?_⟩
  · rw [eval_contains, hnil, strContains_iff]
    exact ⟨[], caseFold cs a, by simp⟩
  · rw [eval_starts, startsWithL_iff]
    exact ⟨[], by simp⟩
  · rw [eval_ends, endsWithL_iff]
    exact ⟨[], by simp⟩

/-- C5: any operator other than the five recognized ones makes
evaluate_condition return false, for all inputs and both case flags. -/
theorem unrecognized_operator_false :
    ∀ (op : String),
      op ∉ ["equals", "not equals", "contains", "starts with", "ends with"] →
      ∀ (a b : List Char) (cs : Bool), evaluate_condition a b op cs = false := by
  intro op hop a b cs
  simp only [List.mem_cons, List.not_mem_nil, or_false, not_or] at hop
  obtain ⟨h1, h2, h3, h4, h5⟩ := hop
  have hbeq : ∀ (t : String), op ≠ t → ((op == t) = false) := by
    intro t ht
    exact beq_eq_false_iff_ne.mpr ht
  unfold evaluate_condition
  simp only [operations, List.lookup, hbeq _ h1, hbeq _ h2, hbeq _ h3, hbeq _ h4, hbeq _ h5]
  rfl

/-- Witness for C5: the operator "wat" is unrecognized and yields false. -/
theorem unrecognized_operator_false_w :
    ("wat" ∉ ["equals", "not equals", "contains", "starts with", "ends with"]) ∧
    evaluate_condition "abc".data "b".data "wat" true = false :=
  ⟨by decide, unrecognized_operator_false "wat" (by decide) "abc".data "b".data true⟩

theorem routeOf_cases (cfg : Config) :
    routeOf cfg = "true_result" ∨ routeOf cfg = "false_result" := by
  cases hev : evaluate_condition cfg.input_text cfg.match_text cfg.operator
    cfg.case_sensitive <;> simp [routeOf, hev]

theorem stopDecision_ne_default (cfg : Config) (cnt : Int) (r : String)
    (hcnt : cnt ≥ cfg.max_iterations)
    (hdr : cfg.default_route = "true_result" ∨ cfg.default_route = "false_result") :
    stopDecision cfg cnt r ≠ cfg.default_route := by
  unfold stopDecision
  by_cases hrd : r = cfg.default_route
  · rw [if_pos ⟨hcnt, hrd⟩, hrd]
    rcases hdr with h | h <;> rw [h] <;> decide
  · rw [if_neg (fun hc => hrd hc.2)]
    exact hrd

theorem default_alive_aux (cfg : Config) (invs : List (List Accessor)) :
    ∀ (s : CompState),
      (cfg.default_route = "true_result" ∨ cfg.default_route = "false_result") →
      s.ctx (iterationKey cfg) + 1 ≥ cfg.max_iterations →
      cfg.default_route ∉ s.stopped →
      cfg.default_route ∉ (runInvocations cfg s invs).stopped := by
  induction invs with
  | nil => intro s _ _ hnotin; exact hnotin
  | cons inv rest ih =>
    intro s hdr hcnt hnotin
    cases inv with
    | nil => exact ih (pre_run_setup s) hdr hcnt hnotin
    | cons a calls =>
      obtain ⟨_, hctx, hst⟩ := invocation_cons cfg s a calls
      refine ih (invocation cfg s (a :: calls)) hdr ?_ ?_
      · rw [hctx]
        simp only [if_pos rfl]
        omega
      · rw [hst]
        simp only [List.mem_append, List.mem_singleton, not_or]
        exact ⟨hnotin, fun h => stopDecision_ne_default cfg _ _ hcnt hdr h.symm⟩

/-- C2: once the incremented run counter has reached max_iterations, on
that invocation and every later one of the same run, a stop request for
the default route is flipped onto the opposite edge, so the default route
is never among the stopped edges. -/
theorem iteration_guard_keeps_default_alive :
    ∀ (cfg : Config) (s : CompState) (invs : List (List Accessor)),
      (cfg.default_route = "true_result" ∨ cfg.default_route = "false_result") →
      s.ctx (iterationKey cfg) + 1 ≥ cfg.max_iterations →
      cfg.default_route ∉ s.stopped →
      (∀ s2 : CompState, s2.iteration_updated = false →
          s2.ctx (iterationKey cfg) + 1 ≥ cfg.max_iterations →
          (iterate_and_stop_once cfg s2 cfg.default_route).stopped =
            s2.stopped ++ [flipRoute cfg.default_route]) ∧
      cfg.default_route ∉ (runInvocations cfg s invs).stopped := by
  intro cfg s invs hdr hcnt hnotin
  refine ⟨?_, default_alive_aux cfg invs s hdr hcnt hnotin⟩
  intro s2 h2 hc2
  rw [iterate_fresh cfg s2 _ h2]
  show s2.stopped ++
      [stopDecision cfg (s2.ctx (iterationKey cfg) + 1) cfg.default_route] = _
  rw [stopDecision, if_pos ⟨hc2, rfl⟩]

/-- Witness for C2: cfg0 has max_iterations 1 and default route
false_result; from the fresh state the counter condition already holds and
two invocations never stop the default route. -/
theorem iteration_guard_keeps_default_alive_w :
    (∀ s2 : CompState, s2.iteration_updated = false →
        s2.ctx (iterationKey cfg0) + 1 ≥ cfg0.max_iterations →
        (iterate_and_stop_once cfg0 s2 cfg0.default_route).stopped =
          s2.stopped ++ [flipRoute cfg0.default_route]) ∧
    cfg0.default_route ∉
      (runInvocations cfg0 s0 [[Accessor.tr], [Accessor.fa]]).stopped :=
  iteration_guard_keeps_default_alive cfg0 s0 [[Accessor.tr], [Accessor.fa]]
    (by decide) (by decide) (by decide)

/-- C1 is false as stated: under cfg0 the condition holds, so the True
edge receives the passthrough message, but the iteration guard (counter
1 at max_iterations 1, with the opposite edge being the default route)
flips the stop onto true_result — the stopped edge is exactly the edge
that received the passthrough value. -/
theorem stopped_edge_can_be_taken_edge :
    (true_response cfg0 (pre_run_setup s0)).2 = RouteValue.passthrough "m".data ∧
    (true_response cfg0 (pre_run_setup s0)).1.stopped = ["true_result"] ∧
    takenEdge cfg0 = "true_result" :=
  ⟨rfl, rfl, rfl⟩

/-- C1 (amended): per invocation exactly one of the two edges receives
the passthrough message (the True edge iff the condition is true) and
exactly one stop signal is emitted; the route submitted for stopping is
always the opposite of the taken edge and is the edge actually stopped
whenever the iteration guard does not fire; when the guard fires, the
flip stops the taken edge itself. -/
theorem exactly_one_taken_one_stopped :
    ∀ (cfg : Config) (s : CompState) (a : Accessor) (rest : List Accessor),
      ((true_response cfg (pre_run_setup s)).2 = RouteValue.passthrough cfg.message ↔
        takenEdge cfg = "true_result") ∧
      ((false_response cfg (pre_run_setup s)).2 = RouteValue.passthrough cfg.message ↔
        takenEdge cfg = "false_result") ∧
      (takenEdge cfg = "true_result" ∨ takenEdge cfg = "false_result") ∧
      ¬(takenEdge cfg = "true_result" ∧ takenEdge cfg = "false_result") ∧
      (invocation cfg s (a :: rest)).stopped =
        s.stopped ++ [stopDecision cfg (s.ctx (iterationKey cfg) + 1) (routeOf cfg)] ∧
      routeOf cfg = flipRoute (takenEdge cfg) ∧
      routeOf cfg ≠ takenEdge cfg ∧
      (¬(s.ctx (iterationKey cfg) + 1 ≥ cfg.max_iterations ∧
          routeOf cfg = cfg.default_route) →
        stopDecision cfg (s.ctx (iterationKey cfg) + 1) (routeOf cfg) = routeOf cfg) := by
  intro cfg s a rest
  have hstop := (invocation_cons cfg s a rest).2.2
  have hguard : ¬(s.ctx (iterationKey cfg) + 1 ≥ cfg.max_iterations ∧
      routeOf cfg = cfg.default_route) →
      stopDecision cfg (s.ctx (iterationKey cfg) + 1) (routeOf cfg) = routeOf cfg := by
    intro h
    unfold stopDecision
    rw [if_neg h]
  cases hev : evaluate_condition cfg.input_text cfg.match_text cfg.operator
    cfg.case_sensitive with
  | false =>
    refine ⟨?_, ?_, Or.inr (by simp [takenEdge, hev]), ?_, hstop, ?_, ?_, hguard⟩
    · simp [true_response_val, takenEdge, hev]
    · simp [false_response_val, takenEdge, hev]
    · simp [takenEdge, hev]
    · simp [routeOf, takenEdge, flipRoute, hev]
    · simp [routeOf, takenEdge, hev]
  | true =>
    refine ⟨?_, ?_, Or.inl (by simp [takenEdge, hev]), ?_, hstop, ?_, ?_, hguard⟩
    · simp [true_response_val, takenEdge, hev]
    · simp [false_response_val, takenEdge, hev]
    · simp [takenEdge, hev]
    · simp [routeOf, takenEdge, flipRoute, hev]
    · simp [routeOf, takenEdge, hev]

/-- Witness for C1 (amended) at cfg0, the fresh state and a lone
true_response call. -/
theorem exactly_one_taken_one_stopped_w :
    ((true_response cfg0 (pre_run_setup s0)).2 = RouteValue.passthrough cfg0.message ↔
      takenEdge cfg0 = "true_result") ∧
    ((false_response cfg0 (pre_run_setup s0)).2 = RouteValue.passthrough cfg0.message ↔
      takenEdge cfg0 = "false_result") ∧
    (takenEdge cfg0 = "true_result" ∨ takenEdge cfg0 = "false_result") ∧
    ¬(takenEdge cfg0 = "true_result" ∧ takenEdge cfg0 = "false_result") ∧
    (invocation cfg0 s0 (Accessor.tr :: [])).stopped =
      s0.stopped ++ [stopDecision cfg0 (s0.ctx (iterationKey cfg0) + 1) (routeOf cfg0)] ∧
    routeOf cfg0 = flipRoute (takenEdge cfg0) ∧
    routeOf cfg0 ≠ takenEdge cfg0 ∧
    (¬(s0.ctx (iterationKey cfg0) + 1 ≥ cfg0.max_iterations ∧
        routeOf cfg0 = cfg0.default_route) →
      stopDecision cfg0 (s0.ctx (iterationKey cfg0) + 1) (routeOf cfg0) = routeOf cfg0) :=
  exactly_one_taken_one_stopped cfg0 s0 Accessor.tr []

/-- C4: within one invocation cycle (pre_run_setup plus any nonempty
sequence of accessor calls) the run counter for the instance is
incremented by exactly one. -/
theorem counter_incremented_exactly_once :
    ∀ (cfg : Config) (s : CompState) (calls : List Accessor),
      calls ≠ [] →
      (invocation cfg s calls).ctx (iterationKey cfg) = s.ctx (iterationKey cfg) + 1 := by
  intro cfg s calls hne
  cases calls with
  | nil => exact absurd rfl hne
  | cons a rest =>
    rw [(invocation_cons cfg s a rest).2.1]
    simp

/-- Witness for C4: both accessors invoked in one cycle, counter still
goes up by exactly one. -/
theorem counter_incremented_exactly_once_w :
    (invocation cfg0 s0 [Accessor.tr, Accessor.fa]).ctx (iterationKey cfg0) =
      s0.ctx (iterationKey cfg0) + 1 :=
  counter_incremented_exactly_once cfg0 s0 [Accessor.tr, Accessor.fa] (by decide)

/-- C8: one call of iterate_and_stop_once changes the run context at
most at the instance's iteration key, appends at most one stop signal,
and leaves the status untouched. -/
theorem iterate_and_stop_once_frame :
    ∀ (cfg : Config) (s : CompState) (r : String),
      (∀ k, k ≠ iterationKey cfg → (iterate_and_stop_once cfg s r).ctx k = s.ctx k) ∧
      ((iterate_and_stop_once cfg s r).stopped = s.stopped ∨
        ∃ e, (iterate_and_stop_once cfg s r).stopped = s.stopped ++ [e]) ∧
      (iterate_and_stop_once cfg s r).status = s.status := by
  intro cfg s r
  cases hu : s.iteration_updated with
  | true =>
    rw [iterate_done cfg s r hu]
    exact ⟨fun k _ => rfl, Or.inl rfl, rfl⟩
  | false =>
    rw [iterate_fresh cfg s r hu]
    refine ⟨fun k hk => ?_, Or.inr ⟨_, rfl⟩, rfl⟩
    simp [hk]

/-- Witness for C8 at cfg0, the fresh state and the false_result route. -/
theorem iterate_and_stop_once_frame_w :
    (∀ k, k ≠ iterationKey cfg0 →
      (iterate_and_stop_once cfg0 s0 "false_result").ctx k = s0.ctx k) ∧
    ((iterate_and_stop_once cfg0 s0 "false_result").stopped = s0.stopped ∨
      ∃ e, (iterate_and_stop_once cfg0 s0 "false_result").stopped = s0.stopped ++ [e]) ∧
    (iterate_and_stop_once cfg0 s0 "false_result").status = s0.status :=
  iterate_and_stop_once_frame cfg0 s0 "false_result"

/-- C9: the decision logic is total and error-free for every input:
each accessor call returns either the passthrough message or the empty
string (never a third outcome), an invocation emits at most one stop
signal, and condition evaluation always yields a boolean — for arbitrary
operator strings, arbitrary texts, any prior counter values and any
(possibly zero or negative) max_iterations. -/
theorem decision_logic_total :
    ∀ (cfg : Config) (s : CompState) (a : Accessor) (calls : List Accessor),
      ((runAccessor cfg s a).2 = RouteValue.passthrough cfg.message ∨
        (runAccessor cfg s a).2 = RouteValue.empty) ∧
      (invocation cfg s calls).stopped.length ≤ s.stopped.length + 1 ∧
      (evaluate_condition cfg.input_text cfg.match_text cfg.operator
          cfg.case_sensitive = true ∨
        evaluate_condition cfg.input_text cfg.match_text cfg.operator
          cfg.case_sensitive = false) := by
  intro cfg s a calls
  refine ⟨?_, ?_, ?_⟩
  · cases a <;>
      cases hev : evaluate_condition cfg.input_text cfg.match_text cfg.operator
        cfg.case_sensitive <;>
      simp [runAccessor, true_response, false_response, hev]
  · cases calls with
    | nil => exact Nat.le_succ _
    | cons a2 rest =>
      rw [(invocation_cons cfg s a2 rest).2.2]
      simp
  · exact Bool.eq_false_or_eq_true _

/-- C10: the observable outcome of one invocation cycle — the stop
signals emitted and the final run context — does not depend on which
accessors the host calls, their order, or their number, as long as at
least one is called: it always equals the outcome of a lone
true_response call. -/
theorem accessor_order_irrelevant :
    ∀ (cfg : Config) (s : CompState) (calls : List Accessor),
      calls ≠ [] →
      (invocation cfg s calls).stopped = (invocation cfg s [Accessor.tr]).stopped ∧
      (invocation cfg s calls).ctx = (invocation cfg s [Accessor.tr]).ctx := by
  intro cfg s calls hne
  cases calls with
  | nil => exact absurd rfl hne
  | cons a rest =>
    obtain ⟨_, hctx1, hst1⟩ := invocation_cons cfg s a rest
    obtain ⟨_, hctx2, hst2⟩ := invocation_cons cfg s Accessor.tr []
    exact ⟨hst1.trans hst2.symm, hctx1.trans hctx2.symm⟩

/-- Witness for C10: a cycle calling only false_response yields the same
stop signal and context as one calling only true_response. -/
theorem accessor_order_irrelevant_w :
    (invocation cfg0 s0 [Accessor.fa]).stopped =
      (invocation cfg0 s0 [Accessor.tr]).stopped ∧
    (invocation cfg0 s0 [Accessor.fa]).ctx = (invocation cfg0 s0 [Accessor.tr]).ctx :=
  accessor_order_irrelevant cfg0 s0 [Accessor.fa] (by decide)

end ConditionalRouter
